import Mathlib

/-!
Verification of BACmon (a passive BACnet/IP network monitor) against its
natural-language specification.

The development shallowly embeds the parts of the code base the claims
refer to:

* BACmon.py: CountInterval (multi-resolution rate counters over a Redis
  style key-value store) and SampleRateTask (sample replay with zero
  gap-filling plus a hysteretic alarm state machine).
* alert_manager.py: Alert, MaintenanceWindow and AlertManager (admission
  pipeline, rate limiting, resolution history).
* anomaly_detection.py: StatisticalDetector (z-score detection with a
  floor on the standard deviation).

Python integers are modelled as Int, Python floats as real numbers
(rounding is idealised), the Redis store as explicit maps threaded through
every operation, and Python dicts as association lists with
insert-or-overwrite semantics.
-/

namespace BACmon

/-- Model of the subset of the Redis store BACmon.py touches: string keys
holding integers (GET/SET/INCR/DELETE), lists of [timestamp, count] pairs
(LPUSH/LTRIM/LRANGE; entries are kept as pairs, serialisation to strings is
the identity in the model) and sets of strings (SADD). -/
structure KV where
  strs : String → Option Int
  lists : String → List (Int × Int)
  sets : String → List String

/-- Empty key-value store. -/
def KV.empty : KV :=
  { strs := fun _ => none, lists := fun _ => [], sets := fun _ => [] }

/-- r.get on an integer-valued key. -/
def KV.get (kv : KV) (k : String) : Option Int :=
  kv.strs k

/-- r.set on an integer-valued key. -/
def KV.set (kv : KV) (k : String) (v : Int) : KV :=
  { kv with strs := fun x => if x = k then some v else kv.strs x }

/-- r.delete on an integer-valued key. -/
def KV.del (kv : KV) (k : String) : KV :=
  { kv with strs := fun x => if x = k then none else kv.strs x }

/-- r.incr: a missing key counts as 0; returns the new value together with
the updated store. -/
def KV.incr (kv : KV) (k : String) : Int × KV :=
  let v := (kv.strs k).getD 0 + 1
  (v, kv.set k v)

/-- r.lpush: prepend an entry to a list. -/
def KV.lpush (kv : KV) (k : String) (e : Int × Int) : KV :=
  { kv with lists := fun x => if x = k then e :: kv.lists x else kv.lists x }

/-- r.ltrim kv k n models ltrim(k, 0, n-1): keep the first n entries. -/
def KV.ltrim (kv : KV) (k : String) (n : Nat) : KV :=
  { kv with lists := fun x => if x = k then (kv.lists x).take n else kv.lists x }

/-- r.sadd: add a member to a set; returns whether it was newly added. -/
def KV.sadd (kv : KV) (k : String) (m : String) : Bool × KV :=
  if m ∈ kv.sets k then (false, kv)
  else (true, { kv with sets := fun x => if x = k then m :: kv.sets x else kv.sets x })

/-- CountInterval parameters from CountInterval.__init__ (BACmon.py):
a resolution label ('s', 'm' or 'h'), the modulus used to align timestamps
and the maximum history length kept per key. -/
structure CountInterval where
  label : String
  modulus : Int
  maxLen : Nat

/-- Mutable per-instance state of a CountInterval: the in-memory cache of
open-bucket counters (a Python dict, modelled as an association list with
insert-or-overwrite) and lastInterval, initialised to 0. -/
structure CIState where
  cache : List (String × Int)
  lastInterval : Int

/-- Fresh CountInterval state as set up by CountInterval.__init__. -/
def CIState.init : CIState :=
  { cache := [], lastInterval := 0 }

/-- Lookup in a Python dict modelled as an association list. -/
def dictGet (d : List (String × Int)) (k : String) : Option Int :=
  (d.find? (fun p => p.1 = k)).map Prod.snd

/-- Insert-or-overwrite in a Python dict modelled as an association list. -/
def dictSet (d : List (String × Int)) (k : String) (v : Int) : List (String × Int) :=
  if (d.find? (fun p => p.1 = k)).isSome
  then d.map (fun p => if p.1 = k then (k, v) else p)
  else d ++ [(k, v)]

/-- Flush loop of CountInterval.Count: for every cached (xkey, xcount), push
[lastInterval, xcount] onto the xkey history list, trim it to maxLen and
delete the open-bucket timestamp key xkey ++ "i". -/
def flushCache (maxLen : Nat) (lastInterval : Int) (cache : List (String × Int))
    (kv : KV) : KV :=
  cache.foldl
    (fun acc p => ((acc.lpush p.1 (lastInterval, p.2)).ltrim p.1 maxLen).del (p.1 ++ "i"))
    kv

/-- CountInterval.Count (BACmon.py).  countTime is the module-level capture
timestamp.  Computes the aligned interval, flushes the cache when the
interval changed, otherwise increments the cached counter (via r.incr on the
keyn counter) or adopts the stored open bucket when the key is absent from
the cache; the trigger path starts a fresh slot at count 1. -/
def CountInterval.Count (ci : CountInterval) (countTime : Int) (msg : String)
    (s : CIState) (kv : KV) : CIState × KV :=
  let key := msg ++ ":" ++ ci.label
  let keyi := key ++ "i"
  let keyn := key ++ "n"
  let interval := countTime - countTime % ci.modulus
  if interval ≠ s.lastInterval then
    -- flush the cache, reset it and trigger a new slot
    let kv1 := flushCache ci.maxLen s.lastInterval s.cache kv
    let kv2 := (kv1.set keyi interval).set keyn 1
    ({ cache := dictSet [] key 1, lastInterval := interval }, kv2)
  else
    match dictGet s.cache key with
    | some _ =>
      -- key in cache: increment the database counter and cache the result
      let (n, kv1) := kv.incr keyn
      ({ s with cache := dictSet s.cache key n }, kv1)
    | none =>
      match kv.get keyi with
      | none =>
        -- unseen key: trigger a new slot
        let kv1 := (kv.set keyi interval).set keyn 1
        ({ s with cache := dictSet s.cache key 1 }, kv1)
      | some lasti =>
        if interval = lasti then
          -- cache load from database: adopt the open bucket and increment
          let (n, kv1) := kv.incr keyn
          ({ s with cache := dictSet s.cache key n }, kv1)
        else
          -- stale open bucket: push it to history, then trigger a new slot
          let count := (kv.get keyn).getD 0
          let kv1 := (kv.lpush key (lasti, count)).ltrim key ci.maxLen
          let kv2 := (kv1.set keyi interval).set keyn 1
          ({ s with cache := dictSet s.cache key 1 }, kv2)

/-- Number of history entries fetched by yield_samples: lrange(key, 0,
WINDOW_SIZE) returns WINDOW_SIZE + 1 entries. -/
def WINDOW_SIZE : Nat := 25

/-- SampleRateTask parameters from SampleRateTask.__init__ (BACmon.py). -/
structure SampleRateTask where
  key : String
  interval : Int
  maxValue : Int
  duration : Nat

/-- Mutable alarm state of a SampleRateTask: the alarm flag, the time it
became active (None while inactive) and the two hysteresis counters. -/
structure SRState where
  alarm : Bool
  alarmTime : Option Int
  setCount : Nat
  resetCount : Nat

/-- SampleRateTask alarm state right after an __init__ that found no stored
alarm key: inactive with both hysteresis counters at zero. -/
def SRState.init : SRState :=
  { alarm := false, alarmTime := none, setCount := 0, resetCount := 0 }

/-- Inner while loop of yield_samples: starting at nt, emit [nt, 0] and step
by interval while nt < t and nt ≤ et.  The fuel argument only bounds the
number of iterations; (t - nt).toNat iterations always suffice because nt
grows by at least 1 per step whenever 0 < interval. -/
def gapZeros (interval : Int) (et : Int) : Nat → Int → Int → List (Int × Int)
  | 0, _, _ => []
  | fuel + 1, nt, t =>
    if nt < t ∧ nt ≤ et then (nt, 0) :: gapZeros interval et fuel (nt + interval) t
    else []

/-- For loop of yield_samples over the (oldest-first) stored samples:
samples older than the cursor are skipped, gaps before a sample are filled
with zeros, the loop breaks once the cursor passes et, and each surviving
sample is emitted at the cursor position. -/
def ysLoop (interval : Int) (et : Int) : Int → List (Int × Int) → List (Int × Int)
  | _, [] => []
  | nt, (t, v) :: rest =>
    if t < nt then ysLoop interval et nt rest
    else
      let g := gapZeros interval et (t - nt).toNat nt t
      let nt2 := nt + interval * g.length
      if nt2 > et then g
      else g ++ (nt2, v) :: ysLoop interval et (nt2 + interval) rest

/-- SampleRateTask.yield_samples (BACmon.py): fetch the most recent
WINDOW_SIZE + 1 buckets of the key history list, reverse them to oldest
first and replay them through the gap-filling loop starting at st. -/
def SampleRateTask.yield_samples (task : SampleRateTask) (kv : KV) (st et : Int) :
    List (Int × Int) :=
  ysLoop task.interval et st (((kv.lists task.key).take (WINDOW_SIZE + 1)).reverse)

/-- SampleRateTask.set_mode (BACmon.py): the alarm is active; a sample at or
below maxValue bumps resetCount and, once it reaches duration, clears the
alarm (delete the :alarm key, push [alarmTime, t] onto the :alarm-history
list); a sample above maxValue resets resetCount.  The code reads
self.alarmTime only while the alarm is active, where it is always an int;
the getD 0 default is unreachable under that invariant. -/
def SampleRateTask.set_mode (task : SampleRateTask) (t v : Int)
    (s : SRState) (kv : KV) : SRState × KV :=
  if v ≤ task.maxValue then
    let rc := s.resetCount + 1
    if rc ≥ task.duration then
      let kv1 := kv.del (task.key ++ ":alarm")
      let kv2 := kv1.lpush (task.key ++ ":alarm-history") (s.alarmTime.getD 0, t)
      ({ alarm := false, alarmTime := none, setCount := 0, resetCount := rc }, kv2)
    else
      ({ s with resetCount := rc }, kv)
  else if s.resetCount ≠ 0 then
    ({ s with resetCount := 0 }, kv)
  else
    (s, kv)

/-- SampleRateTask.reset_mode (BACmon.py): the alarm is inactive; a sample
above maxValue bumps setCount and, once it reaches duration, raises the
alarm (set the :alarm key to t, add the critical message); a sample at or
below maxValue resets setCount.  The SMS message text built inside the
sadd branch is only logged and is not modelled. -/
def SampleRateTask.reset_mode (task : SampleRateTask) (t v : Int)
    (s : SRState) (kv : KV) : SRState × KV :=
  if v > task.maxValue then
    let sc := s.setCount + 1
    if sc ≥ task.duration then
      let kv1 := kv.set (task.key ++ ":alarm") t
      let kv2 := (kv1.sadd "critical-messages" ("-/" ++ task.key ++ "/Rate Exceeded")).2
      ({ alarm := true, alarmTime := some t, setCount := sc, resetCount := 0 }, kv2)
    else
      ({ s with setCount := sc }, kv)
  else if s.setCount ≠ 0 then
    ({ s with setCount := 0 }, kv)
  else
    (s, kv)

/-- One sample step of SampleRateTask.process_task: dispatch on the alarm
flag exactly as the loop body over yield_samples does. -/
def SampleRateTask.step (task : SampleRateTask) (s : SRState) (kv : KV)
    (tv : Int × Int) : SRState × KV :=
  if s.alarm then task.set_mode tv.1 tv.2 s kv else task.reset_mode tv.1 tv.2 s kv

/-- Run a whole sequence of samples through the alarm state machine. -/
def SampleRateTask.run (task : SampleRateTask) (s : SRState) (kv : KV)
    (xs : List (Int × Int)) : SRState × KV :=
  xs.foldl (fun acc tv => task.step acc.1 acc.2 tv) (s, kv)

/-- Number of aligned grid points st, st + interval, ... lying at or below
e (zero when e < st): spec-side measure used to state the corrected
gap-filling behaviour of yield_samples. -/
def gridCount (interval st e : Int) : Nat :=
  if st ≤ e then (e - st).toNat / interval.toNat + 1 else 0

/-- The aligned grid points st, st + interval, ... up through e. -/
def gridPts (interval st e : Int) : List Int :=
  (List.range (gridCount interval st e)).map (fun k : Nat => st + interval * (k : Int))

/-- Count stored for an aligned timestamp among the fetched samples, 0 when
no bucket is stored there. -/
def storedAt (samples : List (Int × Int)) (ts : Int) : Int :=
  ((samples.find? (fun p => p.1 = ts)).map Prod.snd).getD 0

/-- Length of the maximal suffix of the sample sequence whose values all
exceed maxValue: the consecutive-breach count the hysteresis claim speaks
about. -/
def trailHigh (mv : Int) (xs : List (Int × Int)) : Nat :=
  (xs.reverse.takeWhile (fun p => decide (mv < p.2))).length

/-- Length of the maximal suffix of the sample sequence whose values are
all at or below maxValue: the consecutive-ok count of the hysteresis
claim. -/
def trailLow (mv : Int) (xs : List (Int × Int)) : Nat :=
  (xs.reverse.takeWhile (fun p => decide (p.2 ≤ mv))).length

end BACmon

namespace AlertMgr

/-- Lookup in an association list keyed by strings (Python dict / Redis
hash read). -/
def alookup {α : Type} (d : List (String × α)) (k : String) : Option α :=
  (d.find? (fun p => p.1 = k)).map Prod.snd

/-- Insert-or-overwrite into an association list keyed by strings (Python
dict / Redis hash write). -/
def ainsert {α : Type} (d : List (String × α)) (k : String) (v : α) :
    List (String × α) :=
  if (d.find? (fun p => p.1 = k)).isSome
  then d.map (fun p => if p.1 = k then (k, v) else p)
  else d ++ [(k, v)]

/-- Removal of a binding from an association list (del dict[k] / hdel). -/
def aerase {α : Type} (d : List (String × α)) (k : String) : List (String × α) :=
  d.filter (fun p => p.1 ≠ k)

/-- Python truthiness of an optional string: None and the empty string are
falsy. -/
def strTruthy : Option String → Bool
  | some e => !e.isEmpty
  | none => false

/-- Python substring containment (the in operator on strings). -/
def isSubstring (pat s : String) : Bool :=
  decide (List.IsInfix pat.data s.data)

/-- AlertLevel.to_string (alert_manager.py). -/
def levelToString (level : Int) : String :=
  if level = 0 then "debug"
  else if level = 1 then "info"
  else if level = 2 then "warning"
  else if level = 3 then "alert"
  else if level = 4 then "critical"
  else if level = 5 then "emergency"
  else "unknown"

/-- Alert (alert_manager.py).  A details dict is carried along untouched;
json serialisation is the identity in the model. -/
structure Alert where
  key : String
  message : String
  level : Int
  source : String
  details : List (String × String)
  entity : Option String
  timestamp : Int
  uuid : String
  acknowledged : Bool
  resolved : Bool
  notificationsSent : Nat
deriving DecidableEq

/-- Alert.__init__ (alert_manager.py): freshly created alert.  The uuid is
the f-string key_timestamp_(hash(message) mod 100000); Python string hashing
is modelled by an explicit hash parameter, and the Python result of
hash(message) % 100000 is nonnegative exactly as Int.emod by 100000 is. -/
def mkAlert (hash : String → Int) (now : Int) (key message : String) (level : Int)
    (source : String) (details : List (String × String)) (entity : Option String) :
    Alert :=
  { key := key
    message := message
    level := level
    source := source
    details := details
    entity := entity
    timestamp := now
    uuid := key ++ "_" ++ toString now ++ "_" ++ toString (hash message % 100000)
    acknowledged := false
    resolved := false
    notificationsSent := 0 }

/-- MaintenanceWindow (alert_manager.py). -/
structure MaintenanceWindow where
  name : String
  startTime : Int
  endTime : Int
  entityPatterns : List String
  keyPatterns : List String

/-- MaintenanceWindow.is_active: the current time lies in [start, end]. -/
def MaintenanceWindow.isActive (w : MaintenanceWindow) (now : Int) : Bool :=
  decide (w.startTime ≤ now) && decide (now ≤ w.endTime)

/-- MaintenanceWindow.matches_alert (alert_manager.py): inactive windows
match nothing; a window with no patterns at all matches everything;
otherwise substring-match the entity patterns against a truthy entity and
the key patterns against the key. -/
def MaintenanceWindow.matchesAlert (w : MaintenanceWindow) (now : Int) (a : Alert) :
    Bool :=
  if ¬ w.isActive now then false
  else if w.entityPatterns.isEmpty && w.keyPatterns.isEmpty then true
  else if !w.entityPatterns.isEmpty && strTruthy a.entity
      && w.entityPatterns.any (fun p => isSubstring p (a.entity.getD "")) then true
  else if !w.keyPatterns.isEmpty
      && w.keyPatterns.any (fun p => isSubstring p a.key) then true
  else false

/-- Per-key rate limit configuration with the defaults from load_config
already resolved (max_alerts_per_hour default 10, cooldown_period default
300). -/
structure RateLimit where
  maxAlertsPerHour : Int
  cooldownPeriod : Int

/-- Config lookup in _is_rate_limited: rate_limits.get(key,
rate_limits.get("default", {})); a missing entry on both lookups means no
rate limiting. -/
def lookupRateLimit (rls : List (String × RateLimit)) (k : String) :
    Option RateLimit :=
  (alookup rls k).orElse (fun _ => alookup rls "default")

/-- AlertManager._is_rate_limited (alert_manager.py): scan alert_history for
an entry with the same key and entity; suppress when that entry is inside
cooldown_period, or when at least max_alerts_per_hour history entries with
the same key (any entity) lie within the last hour of the new alert. -/
def isRateLimited (rls : List (String × RateLimit)) (history : List Alert)
    (a : Alert) : Bool :=
  match lookupRateLimit rls a.key with
  | none => false
  | some rl =>
    history.any (fun e =>
      decide (e.key = a.key) && decide (e.entity = a.entity) &&
        (decide (a.timestamp - e.timestamp < rl.cooldownPeriod) ||
          decide (rl.maxAlertsPerHour ≤
            ((history.filter (fun x =>
              decide (x.key = a.key) && decide (a.timestamp - 3600 ≤ x.timestamp))).length : Int))))

/-- In-memory AlertManager state (alert_manager.py __init__): the
active_alerts dict keyed by uuid, the bounded alert_history list, the
configured maintenance windows and rate limits, and the notification
queue. -/
structure AMState where
  activeAlerts : List (String × Alert)
  alertHistory : List Alert
  maintenanceWindows : List MaintenanceWindow
  rateLimits : List (String × RateLimit)
  notificationQueue : List Alert
  maxHistory : Nat

/-- AlertManager.__init__ followed by configuration: empty buffers, the
given windows and rate limits, max_history = 1000. -/
def AMState.init (ws : List MaintenanceWindow) (rls : List (String × RateLimit)) :
    AMState :=
  { activeAlerts := []
    alertHistory := []
    maintenanceWindows := ws
    rateLimits := rls
    notificationQueue := []
    maxHistory := 1000 }

/-- Redis state touched by the AlertManager: the active_alerts hash, the
alert_history list and the legacy level-messages sets.  Alert values are
stored as alerts; the json round-trip is the identity in the model. -/
structure RKV where
  hashes : String → List (String × Alert)
  lists : String → List Alert
  sets : String → List String

/-- Empty alert-manager Redis state. -/
def RKV.empty : RKV :=
  { hashes := fun _ => [], lists := fun _ => [], sets := fun _ => [] }

/-- hset on a Redis hash. -/
def RKV.hset (kv : RKV) (h k : String) (v : Alert) : RKV :=
  { kv with hashes := fun x => if x = h then ainsert (kv.hashes x) k v else kv.hashes x }

/-- hdel on a Redis hash. -/
def RKV.hdel (kv : RKV) (h k : String) : RKV :=
  { kv with hashes := fun x => if x = h then aerase (kv.hashes x) k else kv.hashes x }

/-- lpush on a Redis list of alerts. -/
def RKV.lpush (kv : RKV) (k : String) (a : Alert) : RKV :=
  { kv with lists := fun x => if x = k then a :: kv.lists x else kv.lists x }

/-- ltrim kv k n models ltrim(k, 0, n-1). -/
def RKV.ltrim (kv : RKV) (k : String) (n : Nat) : RKV :=
  { kv with lists := fun x => if x = k then (kv.lists x).take n else kv.lists x }

/-- sadd on a Redis set of strings. -/
def RKV.sadd (kv : RKV) (k m : String) : RKV :=
  if m ∈ kv.sets k then kv
  else { kv with sets := fun x => if x = k then m :: kv.sets x else kv.sets x }

/-- AlertManager._save_to_redis (alert_manager.py): resolved alerts go to
the bounded alert_history list and leave the active_alerts hash; unresolved
alerts are written into the active_alerts hash. -/
def saveToRedis (maxHistory : Nat) (kv : RKV) (a : Alert) : RKV :=
  if a.resolved then
    (((kv.lpush "alert_history" a).ltrim "alert_history" maxHistory).hdel
      "active_alerts" a.uuid)
  else
    kv.hset "active_alerts" a.uuid a

/-- Legacy message format written to the level sets by _process_alert. -/
def legacyMsg (a : Alert) : String :=
  if strTruthy a.entity then a.entity.getD "" ++ "/" ++ a.key ++ "/" ++ a.message
  else "-/" ++ a.key ++ "/" ++ a.message

/-- AlertManager._process_alert (alert_manager.py): drop silently when a
maintenance window matches or the alert is rate limited; otherwise insert
into active_alerts, persist, enqueue for notification and record the legacy
message in the level set. -/
def processAlert (now : Int) (st : AMState) (kv : RKV) (a : Alert) :
    AMState × RKV :=
  if st.maintenanceWindows.any (fun w => w.matchesAlert now a) then (st, kv)
  else if isRateLimited st.rateLimits st.alertHistory a then (st, kv)
  else
    let st1 := { st with
      activeAlerts := ainsert st.activeAlerts a.uuid a
      notificationQueue := st.notificationQueue ++ [a] }
    let kv1 := saveToRedis st.maxHistory kv a
    let kv2 := kv1.sadd (levelToString a.level ++ "-messages") (legacyMsg a)
    (st1, kv2)

/-- AlertManager.create_alert (alert_manager.py): build the alert, run it
through _process_alert, and return the alert object unconditionally. -/
def createAlert (hash : String → Int) (now : Int) (key message : String)
    (level : Int) (source : String) (details : List (String × String))
    (entity : Option String) (st : AMState) (kv : RKV) :
    Alert × AMState × RKV :=
  let a := mkAlert hash now key message level source details entity
  let (st1, kv1) := processAlert now st kv a
  (a, st1, kv1)

/-- Trimming loop of resolve_alert: while the history is longer than
max_history, pop from the front. -/
def trimHistory (maxHistory : Nat) (h : List Alert) : List Alert :=
  if h.length > maxHistory then h.drop (h.length - maxHistory) else h

/-- AlertManager.resolve_alert (alert_manager.py): mark the active alert
resolved, append it to the bounded history, remove it from active_alerts
and persist. -/
def resolveAlert (uuid : String) (st : AMState) (kv : RKV) :
    Bool × AMState × RKV :=
  match alookup st.activeAlerts uuid with
  | none => (false, st, kv)
  | some al =>
    let al2 := { al with resolved := true }
    let st1 := { st with
      alertHistory := trimHistory st.maxHistory (st.alertHistory ++ [al2])
      activeAlerts := aerase st.activeAlerts uuid }
    (true, st1, saveToRedis st.maxHistory kv al2)

/-- AlertManager.acknowledge_alert (alert_manager.py): mark an active alert
acknowledged in place and persist it. -/
def acknowledgeAlert (uuid : String) (st : AMState) (kv : RKV) :
    Bool × AMState × RKV :=
  match alookup st.activeAlerts uuid with
  | none => (false, st, kv)
  | some al =>
    let al2 := { al with acknowledged := true }
    let st1 := { st with activeAlerts := ainsert st.activeAlerts uuid al2 }
    (true, st1, saveToRedis st.maxHistory kv al2)

/-- External operations that drive the in-memory alert collections. -/
inductive AMOp
  | create (now : Int) (key message : String) (level : Int) (source : String)
      (details : List (String × String)) (entity : Option String)
  | ack (uuid : String)
  | resolve (uuid : String)

/-- Apply one operation to the manager state. -/
def applyOp (hash : String → Int) (p : AMState × RKV) (op : AMOp) : AMState × RKV :=
  match op with
  | .create now key message level source details entity =>
    (createAlert hash now key message level source details entity p.1 p.2).2
  | .ack uuid => (acknowledgeAlert uuid p.1 p.2).2
  | .resolve uuid => (resolveAlert uuid p.1 p.2).2

/-- Run a sequence of operations from a configured initial state. -/
def runOps (hash : String → Int) (ws : List MaintenanceWindow)
    (rls : List (String × RateLimit)) (ops : List AMOp) : AMState × RKV :=
  ops.foldl (applyOp hash) (AMState.init ws rls, RKV.empty)

/-- Necessary condition stated by claim C10, written from the spec words
for comparison with _is_rate_limited: the history contains an alert with
the same key and entity lying within the cooldown period or within the
last hour of the new alert. -/
def specSameKeyEntityRecent (rl : RateLimit) (history : List Alert) (a : Alert) :
    Bool :=
  history.any (fun e =>
    decide (e.key = a.key) && decide (e.entity = a.entity) &&
      (decide (a.timestamp - e.timestamp < rl.cooldownPeriod) ||
        decide (a.timestamp - 3600 ≤ e.timestamp)))

end AlertMgr

namespace Anomaly

open Classical in
/-- Values of the rolling history (AnomalyDetector.get_values). -/
def getValues (history : List (Int × ℝ)) : List ℝ :=
  history.map Prod.snd

/-- statistics.mean over the window. -/
noncomputable def listMean (xs : List ℝ) : ℝ :=
  xs.sum / xs.length

/-- statistics.stdev: the sample standard deviation (Bessel corrected). -/
noncomputable def sampleStdev (xs : List ℝ) : ℝ :=
  Real.sqrt ((xs.map (fun x => (x - listMean xs) ^ 2)).sum / ((xs.length : ℝ) - 1))

/-- Python all(v == values[0] for v in values); vacuously true on the empty
list, in which case values[0] is never evaluated. -/
def allSame (xs : List ℝ) : Prop :=
  ∀ v ∈ xs, v = xs.headI

/-- StatisticalDetector parameters (anomaly_detection.py __init__). -/
structure StatDetector where
  windowSize : Nat
  zThreshold : ℝ
  minHistory : Nat
  sensitivity : ℝ

open Classical in
/-- moving_std as established by StatisticalDetector.update_statistics: with
enough history, 0.1 for a uniform window and max(stdev, 0.1) otherwise;
1.0 before min_history samples have arrived. -/
noncomputable def movingStd (d : StatDetector) (values : List ℝ) : ℝ :=
  if d.minHistory ≤ values.length then
    if allSame values then 0.1 else max (sampleStdev values) 0.1
  else 1

/-- moving_avg as established by StatisticalDetector.update_statistics. -/
noncomputable def movingAvg (d : StatDetector) (values : List ℝ) : ℝ :=
  if d.minHistory ≤ values.length then listMean values
  else values.sum / (max values.length 1 : Nat)

open Classical in
/-- The is_anomaly outcome of StatisticalDetector.detect
(anomaly_detection.py): with insufficient history no anomaly; otherwise the
z-score of the most recent value against the updated moving statistics is
compared with z_threshold / sensitivity. -/
noncomputable def detectIsAnomaly (d : StatDetector) (history : List (Int × ℝ)) :
    Prop :=
  if d.minHistory ≤ history.length then
    let values := getValues history
    let avg := movingAvg d values
    let std := movingStd d values
    let v := (history.getLastD (0, 0)).2
    let z := if std > 0 then (v - avg) / std else 0
    |z| > d.zThreshold / d.sensitivity
  else False

end Anomaly

namespace BACmon

theorem find?_fst_map (d : List (String × Int)) (k k2 : String) (v : Int) :
    List.find? (fun p => decide (p.1 = k2))
        (d.map (fun p => if p.1 = k then (k, v) else p)) =
      (List.find? (fun p => decide (p.1 = k2)) d).map
        (fun p => if p.1 = k then (k, v) else p) := by
  induction d with
  | nil => rfl
  | cons p d ih =>
    have hfst : (if p.1 = k then ((k, v) : String × Int) else p).1 = p.1 := by
      by_cases hp : p.1 = k <;> simp [hp]
    simp only [List.map_cons, List.find?_cons, hfst]
    cases hpred : decide (p.1 = k2) <;> simp [hpred, ih]

theorem dictGet_dictSet_self (d : List (String × Int)) (k : String) (v : Int) :
    dictGet (dictSet d k v) k = some v := by
  by_cases hfind : (List.find? (fun p => p.1 = k) d).isSome
  · rw [dictSet, if_pos hfind, dictGet, find?_fst_map]
    obtain ⟨q, hq⟩ := Option.isSome_iff_exists.mp hfind
    have hqk : q.1 = k := by simpa using List.find?_some hq
    simp [hq, hqk]
  · rw [dictSet, if_neg hfind, dictGet, List.find?_append]
    have hnone : List.find? (fun p => decide (p.1 = k)) d = none := by
      cases hval : List.find? (fun p => decide (p.1 = k)) d with
      | none => rfl
      | some q => rw [hval] at hfind; simp at hfind
    simp [hnone]

theorem dictGet_dictSet_of_ne (d : List (String × Int)) (k k2 : String) (v : Int)
    (hne : k2 ≠ k) : dictGet (dictSet d k v) k2 = dictGet d k2 := by
  by_cases hfind : (List.find? (fun p => p.1 = k) d).isSome
  · rw [dictSet, if_pos hfind, dictGet, find?_fst_map]
    cases hval : List.find? (fun p => decide (p.1 = k2)) d with
    | none => simp [dictGet, hval]
    | some q =>
      have hqk : q.1 = k2 := by simpa using List.find?_some hval
      have : ¬ q.1 = k := by rw [hqk]; exact hne
      simp [dictGet, hval, this]
  · rw [dictSet, if_neg hfind, dictGet, List.find?_append]
    cases hval : List.find? (fun p => decide (p.1 = k2)) d with
    | none => simp [dictGet, hval, Ne.symm hne]
    | some q => simp [dictGet, hval]

/-- C1.  The claim asserts that any Count call whose aligned time equals
the stored open-bucket timestamp, with the key absent from the in-memory
cache, adopts the stored count and increments it, so that after a restart
mid-bucket with 50 packets already counted the next packet for the key
yields 51.  The code violates this: a fresh CountInterval starts with
lastInterval = 0, so the first Count call after a restart takes the
flush/trigger branch, ignores the stored open bucket (K:si = 60, K:sn = 50
with aligned time 60) and restarts both the cache and the stored counter
at 1.  This theorem evaluates the code at that failing input. -/
theorem c1_restart_first_packet_resets_count :
    let ci : CountInterval := { label := "s", modulus := 60, maxLen := 900 }
    let kv0 := (KV.empty.set "K:si" 60).set "K:sn" 50
    let r := ci.Count 70 "K" CIState.init kv0
    dictGet r.1.cache "K:s" = some 1 ∧ r.2.get "K:sn" = some 1 := by
  constructor <;> rfl

/-- C5 counterexample.  The claim asserts that a Count call with the
current aligned interval equal to lastInterval and the key already cached
performs no write to the KV store.  In the code this branch executes
r.incr on the key:sn counter, a KV write on every packet: here the stored
counter moves from 5 to 6. -/
theorem c5_cache_hit_writes_kv :
    let ci : CountInterval := { label := "s", modulus := 60, maxLen := 900 }
    let s : CIState := { cache := [("K:s", 5)], lastInterval := 60 }
    let kv0 := (KV.empty.set "K:si" 60).set "K:sn" 5
    let r := ci.Count 70 "K" s kv0
    kv0.get "K:sn" = some 5 ∧ r.2.get "K:sn" = some 6 := by
  constructor <;> rfl

/-- C5 as amended: when the current aligned interval equals lastInterval
and the key is already in the in-memory cache, Count performs exactly one
KV operation, an INCR of the key:sn open-bucket counter (so one KV
round-trip per packet, not zero); every other string key, every list and
every set is untouched, lastInterval is unchanged, and only this key's
cache entry changes, to the incremented counter value. -/
theorem c5_cache_hit_frame (ci : CountInterval) (countTime : Int) (msg : String)
    (s : CIState) (kv : KV) (c : Int)
    (hsame : countTime - countTime % ci.modulus = s.lastInterval)
    (hcache : dictGet s.cache (msg ++ ":" ++ ci.label) = some c) :
    let key := msg ++ ":" ++ ci.label
    let r := ci.Count countTime msg s kv
    r.2.get (key ++ "n") = some ((kv.get (key ++ "n")).getD 0 + 1) ∧
    (∀ k2, k2 ≠ key ++ "n" → r.2.get k2 = kv.get k2) ∧
    (∀ k2, r.2.lists k2 = kv.lists k2) ∧
    (∀ k2, r.2.sets k2 = kv.sets k2) ∧
    r.1.lastInterval = s.lastInterval ∧
    dictGet r.1.cache key = some ((kv.get (key ++ "n")).getD 0 + 1) ∧
    (∀ k2, k2 ≠ key → dictGet r.1.cache k2 = dictGet s.cache k2) := by
  intro key r
  have hr : r =
      ({ cache := dictSet s.cache key ((kv.get (key ++ "n")).getD 0 + 1)
         lastInterval := s.lastInterval },
        kv.set (key ++ "n") ((kv.get (key ++ "n")).getD 0 + 1)) := by
    show ci.Count countTime msg s kv = _
    unfold CountInterval.Count
    rw [if_neg (by simp [hsame]), hcache]
    rfl
  rw [hr]
  refine ⟨?_, ?_, ?_, ?_, ?_, ?_, ?_⟩
  · simp [KV.set, KV.get]
  · intro k2 h2; simp [KV.set, KV.get, h2]
  · intro k2; simp [KV.set]
  · intro k2; simp [KV.set]
  · rfl
  · exact dictGet_dictSet_self ..
  · intro k2 h2; exact dictGet_dictSet_of_ne _ _ _ _ h2

/-- C5 witness: a concrete cache-hit call (aligned time 60 equal to
lastInterval, key cached) satisfying the hypotheses of the frame
theorem. -/
theorem c5_witness :
    let ci : CountInterval := { label := "s", modulus := 60, maxLen := 900 }
    let s : CIState := { cache := [("K:s", 5)], lastInterval := 60 }
    let kv0 := (KV.empty.set "K:si" 60).set "K:sn" 5
    let key := "K" ++ ":" ++ ci.label
    let r := ci.Count 70 "K" s kv0
    r.2.get (key ++ "n") = some ((kv0.get (key ++ "n")).getD 0 + 1) ∧
    (∀ k2, k2 ≠ key ++ "n" → r.2.get k2 = kv0.get k2) ∧
    (∀ k2, r.2.lists k2 = kv0.lists k2) ∧
    (∀ k2, r.2.sets k2 = kv0.sets k2) ∧
    r.1.lastInterval = s.lastInterval ∧
    dictGet r.1.cache key = some ((kv0.get (key ++ "n")).getD 0 + 1) ∧
    (∀ k2, k2 ≠ key → dictGet r.1.cache k2 = dictGet s.cache k2) :=
  c5_cache_hit_frame _ 70 "K" _ _ 5 (by decide) (by decide)

/-- C4 counterexample.  The claim asserts that the :alarm-history list
never exceeds 1000 entries, but SampleRateTask.set_mode pushes a record on
every Active-to-Clear transition without any trim: starting from a history
of exactly 1000 records, one clear transition leaves 1001. -/
theorem c4_history_can_exceed_1000 :
    let task : SampleRateTask :=
      { key := "K:s", interval := 1, maxValue := 10, duration := 1 }
    let s : SRState :=
      { alarm := true, alarmTime := some 100, setCount := 3, resetCount := 0 }
    let kv0 : KV := { KV.empty with
      lists := fun k => if k = "K:s:alarm-history" then List.replicate 1000 (0, 0) else [] }
    ((task.set_mode 200 5 s kv0).2.lists "K:s:alarm-history").length = 1001 := by
  intro task s kv0
  have hlist : (task.set_mode 200 5 s kv0).2.lists "K:s:alarm-history" =
      (100, 200) :: List.replicate 1000 (0, 0) := rfl
  rw [hlist, List.length_cons, List.length_replicate]

/-- C4 as amended: on every Active-to-Clear transition of set_mode at
sample time t (value at or below maxValue with the duration-th consecutive
ok sample, alarm active since a), the KV key key:alarm is deleted and the
record [a, t] is pushed onto key:alarm-history, whose length therefore
grows by exactly one; no trimming is applied, so the 1000-entry bound of
the claim does not hold (the history grows without bound).  Other lists
are untouched; the alarm flag clears, setCount resets to 0 and alarmTime
becomes None. -/
theorem c4_clear_transition_effects (task : SampleRateTask) (s : SRState)
    (kv : KV) (t v a : Int) (hv : v ≤ task.maxValue)
    (hd : task.duration ≤ s.resetCount + 1) (ha : s.alarmTime = some a) :
    let r := task.set_mode t v s kv
    r.2.get (task.key ++ ":alarm") = none ∧
    r.2.lists (task.key ++ ":alarm-history") =
      (a, t) :: kv.lists (task.key ++ ":alarm-history") ∧
    (r.2.lists (task.key ++ ":alarm-history")).length =
      (kv.lists (task.key ++ ":alarm-history")).length + 1 ∧
    (∀ k2, k2 ≠ task.key ++ ":alarm-history" → r.2.lists k2 = kv.lists k2) ∧
    r.1.alarm = false ∧ r.1.setCount = 0 ∧ r.1.alarmTime = none := by
  intro r
  have hr : r =
      ({ alarm := false, alarmTime := none, setCount := 0,
          resetCount := s.resetCount + 1 },
        (kv.del (task.key ++ ":alarm")).lpush (task.key ++ ":alarm-history") (a, t)) := by
    show task.set_mode t v s kv = _
    unfold SampleRateTask.set_mode
    rw [if_pos hv, if_pos hd, ha]
    rfl
  rw [hr]
  refine ⟨?_, ?_, ?_, ?_, rfl, rfl, rfl⟩
  · simp [KV.lpush, KV.del, KV.get]
  · simp [KV.lpush, KV.del]
  · simp [KV.lpush, KV.del]
  · intro k2 h2; simp [KV.lpush, KV.del, h2]

/-- C4 witness: a concrete clear transition at time 200 with alarm active
since 100 satisfying the hypotheses of the transition theorem. -/
theorem c4_witness :
    let task : SampleRateTask :=
      { key := "K:s", interval := 1, maxValue := 10, duration := 2 }
    let s : SRState :=
      { alarm := true, alarmTime := some 100, setCount := 3, resetCount := 1 }
    let kv0 : KV := KV.empty
    let r := task.set_mode 200 5 s kv0
    r.2.get (task.key ++ ":alarm") = none ∧
    r.2.lists (task.key ++ ":alarm-history") =
      (100, 200) :: kv0.lists (task.key ++ ":alarm-history") ∧
    (r.2.lists (task.key ++ ":alarm-history")).length =
      (kv0.lists (task.key ++ ":alarm-history")).length + 1 ∧
    (∀ k2, k2 ≠ task.key ++ ":alarm-history" → r.2.lists k2 = kv0.lists k2) ∧
    r.1.alarm = false ∧ r.1.setCount = 0 ∧ r.1.alarmTime = none :=
  c4_clear_transition_effects _ _ _ 200 5 100 (by decide) (by decide) (by decide)

theorem trailHigh_append_of_high (mv t v : Int) (xs : List (Int × Int))
    (h : mv < v) : trailHigh mv (xs ++ [(t, v)]) = trailHigh mv xs + 1 := by
  simp [trailHigh, List.takeWhile_cons, h]

theorem trailHigh_append_of_low (mv t v : Int) (xs : List (Int × Int))
    (h : ¬ mv < v) : trailHigh mv (xs ++ [(t, v)]) = 0 := by
  simp [trailHigh, List.takeWhile_cons, h]

theorem trailLow_append_of_low (mv t v : Int) (xs : List (Int × Int))
    (h : v ≤ mv) : trailLow mv (xs ++ [(t, v)]) = trailLow mv xs + 1 := by
  simp [trailLow, List.takeWhile_cons, h]

theorem trailLow_append_of_high (mv t v : Int) (xs : List (Int × Int))
    (h : ¬ v ≤ mv) : trailLow mv (xs ++ [(t, v)]) = 0 := by
  simp [trailLow, List.takeWhile_cons, h]

theorem run_append_single (task : SampleRateTask) (s : SRState) (kv : KV)
    (xs : List (Int × Int)) (x : Int × Int) :
    task.run s kv (xs ++ [x]) =
      task.step (task.run s kv xs).1 (task.run s kv xs).2 x := by
  simp [SampleRateTask.run, List.foldl_append]

theorem run_inactive_eq (task : SampleRateTask) (a0 : Option Int) (r0 : Nat)
    (kv : KV) (xs : List (Int × Int))
    (h : ∀ n ≤ xs.length, trailHigh task.maxValue (xs.take n) < task.duration) :
    (task.run ⟨false, a0, 0, r0⟩ kv xs).1 =
      ⟨false, a0, trailHigh task.maxValue xs, r0⟩ := by
  induction xs using List.reverseRecOn with
  | nil => simp [SampleRateTask.run, trailHigh]
  | append_singleton ys y ih =>
    have hys : ∀ n ≤ ys.length, trailHigh task.maxValue (ys.take n) < task.duration := by
      intro n hn
      have := h n (by simp; omega)
      rwa [List.take_append_of_le_length hn] at this
    rw [run_append_single]
    obtain ⟨t, v⟩ := y
    by_cases hv : task.maxValue < v
    · have hlt : trailHigh task.maxValue (ys ++ [(t, v)]) < task.duration := by
        have := h ((ys ++ [(t, v)]).length) le_rfl
        rwa [List.take_length] at this
      rw [trailHigh_append_of_high _ _ _ _ hv] at hlt ⊢
      have hsc : ¬ trailHigh task.maxValue ys + 1 ≥ task.duration := by omega
      simp only [SampleRateTask.step, ih hys, SampleRateTask.reset_mode]
      simp [hv, hsc]
    · rw [trailHigh_append_of_low _ _ _ _ hv]
      simp only [SampleRateTask.step, ih hys, SampleRateTask.reset_mode]
      by_cases hz : trailHigh task.maxValue ys = 0
      · simp [hv, hz]
      · simp [hv, hz]

theorem run_activation (task : SampleRateTask) (a0 : Option Int) (r0 : Nat)
    (kv : KV) (ys : List (Int × Int)) (t v : Int) (hdur : 1 ≤ task.duration)
    (h : ∀ n ≤ ys.length, trailHigh task.maxValue (ys.take n) < task.duration)
    (hfull : task.duration ≤ trailHigh task.maxValue (ys ++ [(t, v)])) :
    (task.run ⟨false, a0, 0, r0⟩ kv (ys ++ [(t, v)])).1 =
      ⟨true, some t, task.duration, 0⟩ := by
  have hv : task.maxValue < v := by
    by_contra hnv
    rw [trailHigh_append_of_low _ _ _ _ hnv] at hfull
    omega
  have hsum := trailHigh_append_of_high task.maxValue t v ys hv
  have hlast : trailHigh task.maxValue ys + 1 = task.duration := by
    have h1 := h ys.length le_rfl
    rw [List.take_length] at h1
    omega
  rw [run_append_single, run_inactive_eq task a0 r0 kv ys h]
  simp only [SampleRateTask.step, SampleRateTask.reset_mode]
  simp [hv, hlast]

theorem run_active_eq (task : SampleRateTask) (at0 : Option Int) (sc0 : Nat)
    (kv : KV) (xs : List (Int × Int))
    (h : ∀ n ≤ xs.length, trailLow task.maxValue (xs.take n) < task.duration) :
    (task.run ⟨true, at0, sc0, 0⟩ kv xs).1 =
      ⟨true, at0, sc0, trailLow task.maxValue xs⟩ := by
  induction xs using List.reverseRecOn with
  | nil => simp [SampleRateTask.run, trailLow]
  | append_singleton ys y ih =>
    have hys : ∀ n ≤ ys.length, trailLow task.maxValue (ys.take n) < task.duration := by
      intro n hn
      have := h n (by simp; omega)
      rwa [List.take_append_of_le_length hn] at this
    rw [run_append_single]
    obtain ⟨t, v⟩ := y
    by_cases hv : v ≤ task.maxValue
    · have hlt : trailLow task.maxValue (ys ++ [(t, v)]) < task.duration := by
        have := h ((ys ++ [(t, v)]).length) le_rfl
        rwa [List.take_length] at this
      rw [trailLow_append_of_low _ _ _ _ hv] at hlt ⊢
      have hrc : ¬ trailLow task.maxValue ys + 1 ≥ task.duration := by omega
      simp only [SampleRateTask.step, ih hys, SampleRateTask.set_mode]
      simp [hv, hrc]
    · rw [trailLow_append_of_high _ _ _ _ hv]
      simp only [SampleRateTask.step, ih hys, SampleRateTask.set_mode]
      by_cases hz : trailLow task.maxValue ys = 0
      · simp [hv, hz]
      · simp [hv, hz]

theorem run_clear (task : SampleRateTask) (at0 : Option Int) (sc0 : Nat)
    (kv : KV) (ys : List (Int × Int)) (t v : Int) (hdur : 1 ≤ task.duration)
    (h : ∀ n ≤ ys.length, trailLow task.maxValue (ys.take n) < task.duration)
    (hfull : task.duration ≤ trailLow task.maxValue (ys ++ [(t, v)])) :
    (task.run ⟨true, at0, sc0, 0⟩ kv (ys ++ [(t, v)])).1 =
      ⟨false, none, 0, task.duration⟩ := by
  have hv : v ≤ task.maxValue := by
    by_contra hnv
    rw [trailLow_append_of_high _ _ _ _ hnv] at hfull
    omega
  have hlast : trailLow task.maxValue ys + 1 = task.duration := by
    have h1 := h ys.length le_rfl
    rw [List.take_length] at h1
    have hsum := trailLow_append_of_low task.maxValue t v ys hv
    omega
  rw [run_append_single, run_active_eq task at0 sc0 kv ys h]
  simp only [SampleRateTask.step, SampleRateTask.set_mode]
  simp [hv, hlast]

/-- C3: the alarm state machine is hysteretic.  Starting from the inactive
initial state, as long as every prefix of the sample sequence ends in
fewer than duration consecutive samples above maxValue the alarm stays
inactive and setCount equals that trailing count (so an intervening low
sample resets it to zero); the alarm becomes active exactly on the sample
that completes the duration-th consecutive breach, recording its time.
Symmetrically, from a freshly activated state the alarm stays active while
every prefix ends in fewer than duration consecutive samples at or below
maxValue, resetCount tracking that trailing count, and it clears exactly
on the sample completing the duration-th consecutive ok sample. -/
theorem c3_hysteresis (task : SampleRateTask) (hdur : 1 ≤ task.duration) :
    (∀ kv xs, (∀ n ≤ List.length xs, trailHigh task.maxValue (xs.take n) < task.duration) →
      (task.run SRState.init kv xs).1.alarm = false ∧
      (task.run SRState.init kv xs).1.setCount = trailHigh task.maxValue xs) ∧
    (∀ kv ys t v, (∀ n ≤ List.length ys, trailHigh task.maxValue (ys.take n) < task.duration) →
      task.duration ≤ trailHigh task.maxValue (ys ++ [(t, v)]) →
      (task.run SRState.init kv (ys ++ [(t, v)])).1.alarm = true ∧
      (task.run SRState.init kv (ys ++ [(t, v)])).1.alarmTime = some t) ∧
    (∀ kv a sc xs, (∀ n ≤ List.length xs, trailLow task.maxValue (xs.take n) < task.duration) →
      (task.run ⟨true, some a, sc, 0⟩ kv xs).1.alarm = true ∧
      (task.run ⟨true, some a, sc, 0⟩ kv xs).1.resetCount = trailLow task.maxValue xs) ∧
    (∀ kv a sc ys t v, (∀ n ≤ List.length ys, trailLow task.maxValue (ys.take n) < task.duration) →
      task.duration ≤ trailLow task.maxValue (ys ++ [(t, v)]) →
      (task.run ⟨true, some a, sc, 0⟩ kv (ys ++ [(t, v)])).1.alarm = false ∧
      (task.run ⟨true, some a, sc, 0⟩ kv (ys ++ [(t, v)])).1.setCount = 0) := by
  refine ⟨?_, ?_, ?_, ?_⟩
  · intro kv xs h
    rw [show (SRState.init : SRState) = ⟨false, none, 0, 0⟩ from rfl,
      run_inactive_eq task none 0 kv xs h]
    exact ⟨rfl, rfl⟩
  · intro kv ys t v h hfull
    rw [show (SRState.init : SRState) = ⟨false, none, 0, 0⟩ from rfl,
      run_activation task none 0 kv ys t v hdur h hfull]
    exact ⟨rfl, rfl⟩
  · intro kv a sc xs h
    rw [run_active_eq task (some a) sc kv xs h]
    exact ⟨rfl, rfl⟩
  · intro kv a sc ys t v h hfull
    rw [run_clear task (some a) sc kv ys t v hdur h hfull]
    exact ⟨rfl, rfl⟩

/-- C3 witness: with maxValue 10 and duration 2, the sequence high, low,
high, high activates the alarm exactly on its fourth sample (the second
consecutive breach), at time 30. -/
theorem c3_witness :
    let task : SampleRateTask :=
      { key := "K:s", interval := 10, maxValue := 10, duration := 2 }
    (task.run SRState.init KV.empty ([(0, 20), (10, 5), (20, 30)] ++ [(30, 40)])).1.alarm = true ∧
    (task.run SRState.init KV.empty ([(0, 20), (10, 5), (20, 30)] ++ [(30, 40)])).1.alarmTime = some 30 :=
  (c3_hysteresis _ (by decide)).2.1 KV.empty [(0, 20), (10, 5), (20, 30)] 30 40
    (by decide) (by decide)

end BACmon

namespace AlertMgr

theorem matchesAlert_empty_iff (w : MaintenanceWindow) (now : Int) (a : Alert)
    (he : w.entityPatterns = []) (hk : w.keyPatterns = []) :
    w.matchesAlert now a = true ↔ w.startTime ≤ now ∧ now ≤ w.endTime := by
  unfold MaintenanceWindow.matchesAlert MaintenanceWindow.isActive
  by_cases h1 : w.startTime ≤ now
  · by_cases h2 : now ≤ w.endTime
    · simp [he, hk, h1, h2]
    · simp [he, hk, h1, h2]
  · simp [he, hk, h1]

/-- C8: a maintenance window whose entity and key pattern lists are both
empty matches an alert exactly when the current time lies within
[start_time, end_time]; consequently while such a window is active every
alert creation is dropped by _process_alert, leaving the manager state and
the KV store unchanged. -/
theorem c8_empty_patterns_window :
    (∀ (w : MaintenanceWindow) (now : Int) (a : Alert),
      w.entityPatterns = [] → w.keyPatterns = [] →
      (w.matchesAlert now a = true ↔ w.startTime ≤ now ∧ now ≤ w.endTime)) ∧
    (∀ (now : Int) (st : AMState) (kv : RKV) (a : Alert) (w : MaintenanceWindow),
      w ∈ st.maintenanceWindows → w.entityPatterns = [] → w.keyPatterns = [] →
      w.startTime ≤ now → now ≤ w.endTime →
      processAlert now st kv a = (st, kv)) := by
  constructor
  · exact matchesAlert_empty_iff
  · intro now st kv a w hw he hk h1 h2
    unfold processAlert
    rw [if_pos]
    exact List.any_eq_true.mpr
      ⟨w, hw, (matchesAlert_empty_iff w now a he hk).mpr ⟨h1, h2⟩⟩

/-- C8 witness: a concrete empty-pattern window active at time 500 matches
a concrete alert and drops its creation. -/
theorem c8_witness :
    let w : MaintenanceWindow :=
      { name := "mw", startTime := 0, endTime := 10000,
        entityPatterns := [], keyPatterns := [] }
    let a : Alert :=
      { key := "K", message := "m", level := 3, source := "s", details := [],
        entity := none, timestamp := 500, uuid := "u1",
        acknowledged := false, resolved := false, notificationsSent := 0 }
    let st : AMState := AMState.init [w] []
    (w.matchesAlert 500 a = true ↔ w.startTime ≤ 500 ∧ 500 ≤ w.endTime) ∧
    processAlert 500 st RKV.empty a = (st, RKV.empty) := by
  intro w a st
  exact ⟨c8_empty_patterns_window.1 w 500 a rfl rfl,
    c8_empty_patterns_window.2 500 st RKV.empty a w (List.mem_singleton.mpr rfl)
      rfl rfl (by decide) (by decide)⟩

/-- C6 counterexample.  The claim asserts that a creation dropped by the
maintenance gate returns null; in the code create_alert returns the
constructed Alert object unconditionally.  Here an active empty-pattern
window drops the alert (nothing is admitted, stored or queued), yet the
returned value is the freshly built alert, not an absent value. -/
theorem c6_dropped_creation_returns_alert :
    let w : MaintenanceWindow :=
      { name := "mw", startTime := 0, endTime := 10000,
        entityPatterns := [], keyPatterns := [] }
    let st0 := AMState.init [w]
      [("default", { maxAlertsPerHour := 10, cooldownPeriod := 300 })]
    let h : String → Int := fun s => (s.length : Int)
    let r := createAlert h 500 "K" "m" 3 "src" [] none st0 RKV.empty
    r.1 = mkAlert h 500 "K" "m" 3 "src" [] none ∧
    r.2.1 = st0 ∧ r.2.2 = RKV.empty ∧
    alookup r.2.1.activeAlerts r.1.uuid = none ∧
    r.2.1.notificationQueue = [] :=
  ⟨rfl, rfl, rfl, rfl, rfl⟩

/-- C6 as amended: create_alert always returns the constructed Alert
object, even when the creation is dropped by the maintenance gate or the
rate-limit gate; the drop itself is silent and complete, leaving the
in-memory state (active_alerts, history, queue) and the KV store exactly
unchanged. -/
theorem c6_drop_leaves_state_unchanged (hash : String → Int) (now : Int)
    (key message : String) (level : Int) (source : String)
    (details : List (String × String)) (entity : Option String)
    (st : AMState) (kv : RKV)
    (hdrop : st.maintenanceWindows.any
        (fun w => w.matchesAlert now
          (mkAlert hash now key message level source details entity)) = true ∨
      isRateLimited st.rateLimits st.alertHistory
        (mkAlert hash now key message level source details entity) = true) :
    createAlert hash now key message level source details entity st kv =
      (mkAlert hash now key message level source details entity, st, kv) := by
  by_cases hm : st.maintenanceWindows.any
      (fun w => w.matchesAlert now
        (mkAlert hash now key message level source details entity)) = true
  · simp [createAlert, processAlert, hm]
  · rcases hdrop with hm2 | hr
    · exact absurd hm2 hm
    · simp [createAlert, processAlert, hm, hr]

/-- C6 witness: a creation dropped by the rate-limit gate (a same-key,
same-entity alert resolved 10 seconds earlier with a 300 second cooldown)
returns the alert and leaves everything unchanged. -/
theorem c6_witness :
    let e1 : Alert :=
      { key := "K", message := "m0", level := 3, source := "s", details := [],
        entity := none, timestamp := 990, uuid := "u0",
        acknowledged := false, resolved := true, notificationsSent := 0 }
    let st : AMState :=
      { activeAlerts := [], alertHistory := [e1], maintenanceWindows := [],
        rateLimits := [("default", { maxAlertsPerHour := 10, cooldownPeriod := 300 })],
        notificationQueue := [], maxHistory := 1000 }
    let h : String → Int := fun s => (s.length : Int)
    createAlert h 1000 "K" "m" 3 "src" [] none st RKV.empty =
      (mkAlert h 1000 "K" "m" 3 "src" [] none, st, RKV.empty) :=
  c6_drop_leaves_state_unchanged _ 1000 "K" "m" 3 "src" [] none _ RKV.empty
    (Or.inr (by decide))

/-- C7 counterexample.  The claim asserts the uuid assigned at creation
differs from every uuid already present in active_alerts or alert_history.
The uuid is the deterministic string key_timestamp_(hash(message) mod
100000), so a second, distinct alert (different source) with the same key
and message created in the same second receives a uuid that is already
present in active_alerts. -/
theorem c7_uuid_collision :
    let h : String → Int := fun s => (s.length : Int)
    let st0 := AMState.init [] []
    let r1 := createAlert h 1000 "K" "m" 3 "s1" [] none st0 RKV.empty
    let a2 := mkAlert h 1000 "K" "m" 3 "s2" [] none
    a2.uuid = r1.1.uuid ∧ a2 ≠ r1.1 ∧
    a2.uuid ∈ r1.2.1.activeAlerts.map Prod.fst :=
  ⟨rfl, by decide, by decide⟩

theorem ainsert_keys_nodup {α : Type} (d : List (String × α)) (k : String)
    (v : α) (h : (d.map Prod.fst).Nodup) :
    ((ainsert d k v).map Prod.fst).Nodup := by
  unfold ainsert
  split
  case isTrue hs =>
    have hkeys : (d.map (fun p => if p.1 = k then (k, v) else p)).map Prod.fst =
        d.map Prod.fst := by
      rw [List.map_map]
      exact List.map_congr_left (fun p _ => by by_cases hp : p.1 = k <;> simp [hp])
    rw [hkeys]; exact h
  case isFalse hs =>
    rw [List.map_append]
    have hk : k ∉ d.map Prod.fst := by
      intro hmem
      obtain ⟨p, hp, hpk⟩ := List.mem_map.mp hmem
      exact hs (List.find?_isSome.mpr ⟨p, hp, by simp [hpk]⟩)
    simp [List.nodup_append, h, hk]

theorem aerase_keys_nodup {α : Type} (d : List (String × α)) (k : String)
    (h : (d.map Prod.fst).Nodup) :
    ((aerase d k).map Prod.fst).Nodup :=
  ((List.filter_sublist d).map Prod.fst).nodup h

theorem applyOp_keys_nodup (hash : String → Int) (p : AMState × RKV) (op : AMOp)
    (h : (p.1.activeAlerts.map Prod.fst).Nodup) :
    (((applyOp hash p op).1.activeAlerts.map Prod.fst)).Nodup := by
  cases op with
  | create now key message level source details entity =>
    show (((createAlert hash now key message level source details entity p.1 p.2).2.1.activeAlerts.map Prod.fst)).Nodup
    by_cases hm : p.1.maintenanceWindows.any
        (fun w => w.matchesAlert now
          (mkAlert hash now key message level source details entity)) = true
    · simpa [createAlert, processAlert, hm] using h
    · by_cases hr : isRateLimited p.1.rateLimits p.1.alertHistory
          (mkAlert hash now key message level source details entity) = true
      · simpa [createAlert, processAlert, hm, hr] using h
      · simp only [createAlert, processAlert, hm, hr]
        simpa using ainsert_keys_nodup p.1.activeAlerts _ _ h
  | ack uuid =>
    show (((acknowledgeAlert uuid p.1 p.2).2.1.activeAlerts.map Prod.fst)).Nodup
    unfold acknowledgeAlert
    cases hval : alookup p.1.activeAlerts uuid with
    | none => exact h
    | some al => exact ainsert_keys_nodup p.1.activeAlerts _ _ h
  | resolve uuid =>
    show (((resolveAlert uuid p.1 p.2).2.1.activeAlerts.map Prod.fst)).Nodup
    unfold resolveAlert
    cases hval : alookup p.1.activeAlerts uuid with
    | none => exact h
    | some al => exact aerase_keys_nodup p.1.activeAlerts _ h

/-- C7 as amended: the uuid is a deterministic function of the key, the
creation second and hash(message) mod 100000 — two alerts agreeing on
those three values share a uuid no matter how the rest differs, so
uniqueness across active_alerts and alert_history fails.  What does hold
at every reachable state is that the uuids within active_alerts (a dict
keyed by uuid, where a colliding insert overwrites) are pairwise
distinct. -/
theorem c7_uuid_deterministic_and_active_unique :
    (∀ (hash : String → Int) (now : Int) (key m1 m2 : String) (l1 l2 : Int)
        (s1 s2 : String) (d1 d2 : List (String × String)) (e1 e2 : Option String),
      hash m1 % 100000 = hash m2 % 100000 →
      (mkAlert hash now key m1 l1 s1 d1 e1).uuid =
        (mkAlert hash now key m2 l2 s2 d2 e2).uuid) ∧
    (∀ (hash : String → Int) (ws : List MaintenanceWindow)
        (rls : List (String × RateLimit)) (ops : List AMOp),
      ((runOps hash ws rls ops).1.activeAlerts.map Prod.fst).Nodup) := by
  constructor
  · intro hash now key m1 m2 l1 l2 s1 s2 d1 d2 e1 e2 hh
    simp [mkAlert, hh]
  · intro hash ws rls ops
    have H : ∀ (l : List AMOp) (p : AMState × RKV),
        (p.1.activeAlerts.map Prod.fst).Nodup →
        (((l.foldl (applyOp hash) p)).1.activeAlerts.map Prod.fst).Nodup := by
      intro l
      induction l with
      | nil => intro p h; exact h
      | cons op rest ih =>
        intro p h
        exact ih _ (applyOp_keys_nodup hash p op h)
    exact H ops _ (by simp [AMState.init])

/-- C7 witness: two alerts with the same key and message hash in the same
second get the same uuid, and a concrete run of two creations and a
resolution keeps active_alerts uuids pairwise distinct. -/
theorem c7_witness :
    let h : String → Int := fun s => (s.length : Int)
    (mkAlert h 1000 "K" "ab" 3 "s1" [] none).uuid =
      (mkAlert h 1000 "K" "cd" 4 "s2" [] (some "E")).uuid ∧
    (((runOps h [] [] [AMOp.create 1000 "K" "m" 3 "s1" [] none,
        AMOp.create 1001 "K" "m" 3 "s2" [] none]).1.activeAlerts.map
          Prod.fst)).Nodup :=
  ⟨c7_uuid_deterministic_and_active_unique.1 _ 1000 "K" "ab" "cd" 3 4 "s1" "s2"
      [] [] none (some "E") (by decide),
    c7_uuid_deterministic_and_active_unique.2 _ [] []
      [AMOp.create 1000 "K" "m" 3 "s1" [] none,
        AMOp.create 1001 "K" "m" 3 "s2" [] none]⟩

theorem isRateLimited_imp_match (rls : List (String × RateLimit))
    (history : List Alert) (a : Alert) (h : isRateLimited rls history a = true) :
    ∃ e ∈ history, e.key = a.key ∧ e.entity = a.entity := by
  unfold isRateLimited at h
  cases hlook : lookupRateLimit rls a.key with
  | none => rw [hlook] at h; simp at h
  | some rl =>
    rw [hlook] at h
    obtain ⟨e, he, hb⟩ := List.any_eq_true.mp h
    simp only [Bool.and_eq_true, decide_eq_true_eq] at hb
    exact ⟨e, he, hb.1.1, hb.1.2⟩

/-- C10 counterexample.  The claim asserts _is_rate_limited returns true
only when the history holds a same-key same-entity alert within the
cooldown or hourly window.  With max_alerts_per_hour 1, a same-(key,
entity) alert resolved two hours ago (outside both windows) plus one
same-key alert for a different entity inside the last hour make
_is_rate_limited return true, while the claimed necessary condition is
false. -/
theorem c10_limited_without_recent_match :
    let rl : RateLimit := { maxAlertsPerHour := 1, cooldownPeriod := 300 }
    let e1 : Alert :=
      { key := "K", message := "m1", level := 3, source := "s", details := [],
        entity := some "E1", timestamp := 1000, uuid := "u1",
        acknowledged := false, resolved := true, notificationsSent := 0 }
    let e2 : Alert :=
      { key := "K", message := "m2", level := 3, source := "s", details := [],
        entity := some "E2", timestamp := 7900, uuid := "u2",
        acknowledged := false, resolved := true, notificationsSent := 0 }
    let a : Alert :=
      { key := "K", message := "m3", level := 3, source := "s", details := [],
        entity := some "E1", timestamp := 8200, uuid := "u3",
        acknowledged := false, resolved := false, notificationsSent := 0 }
    isRateLimited [("default", rl)] [e1, e2] a = true ∧
    specSameKeyEntityRecent rl [e1, e2] a = false := by
  constructor <;> rfl

/-- C10 as amended: _is_rate_limited consults only the resolved-alert
history; it returns true only when that history contains an alert with the
same key and entity (and then only if that entry is within the cooldown
period or at least max_alerts_per_hour same-key entries, of any entity,
lie within the last hour).  Consequently a (key, entity) pair with no
resolved alert is never rate limited, regardless of active alerts, and
create_alert never adds to alert_history. -/
theorem c10_rate_limit_needs_resolved_match :
    (∀ (rls : List (String × RateLimit)) (history : List Alert) (a : Alert),
      isRateLimited rls history a = true →
      ∃ e ∈ history, e.key = a.key ∧ e.entity = a.entity) ∧
    (∀ (rls : List (String × RateLimit)) (history : List Alert) (a : Alert),
      (∀ e ∈ history, ¬ (e.key = a.key ∧ e.entity = a.entity)) →
      isRateLimited rls history a = false) ∧
    (∀ (hash : String → Int) (now : Int) (key message : String) (level : Int)
        (source : String) (details : List (String × String))
        (entity : Option String) (st : AMState) (kv : RKV),
      ((createAlert hash now key message level source details entity st kv).2.1).alertHistory =
        st.alertHistory) := by
  refine ⟨isRateLimited_imp_match, ?_, ?_⟩
  · intro rls history a hno
    cases hval : isRateLimited rls history a with
    | false => rfl
    | true =>
      obtain ⟨e, he, hk, hent⟩ := isRateLimited_imp_match rls history a hval
      exact absurd ⟨hk, hent⟩ (hno e he)
  · intro hash now key message level source details entity st kv
    by_cases hm : st.maintenanceWindows.any
        (fun w => w.matchesAlert now
          (mkAlert hash now key message level source details entity)) = true
    · simp [createAlert, processAlert, hm]
    · by_cases hr : isRateLimited st.rateLimits st.alertHistory
          (mkAlert hash now key message level source details entity) = true
      · simp [createAlert, processAlert, hm, hr]
      · simp [createAlert, processAlert, hm, hr]

/-- C10 witness: a history holding only an alert for a different key never
rate-limits the new alert. -/
theorem c10_witness :
    let e1 : Alert :=
      { key := "J", message := "m1", level := 3, source := "s", details := [],
        entity := some "E1", timestamp := 8100, uuid := "u1",
        acknowledged := false, resolved := true, notificationsSent := 0 }
    let a : Alert :=
      { key := "K", message := "m2", level := 3, source := "s", details := [],
        entity := some "E1", timestamp := 8200, uuid := "u2",
        acknowledged := false, resolved := false, notificationsSent := 0 }
    isRateLimited [("default", { maxAlertsPerHour := 10, cooldownPeriod := 300 })]
      [e1] a = false :=
  c10_rate_limit_needs_resolved_match.2.1 _ _ _ (by decide)

end AlertMgr

namespace Anomaly

theorem listMean_allSame (xs : List ℝ) (hne : xs ≠ []) (h : allSame xs) :
    listMean xs = xs.headI := by
  have hsum : xs.sum = xs.length • xs.headI := List.sum_eq_card_nsmul xs _ h
  have hlen : (xs.length : ℝ) ≠ 0 := by
    simpa using List.length_pos.mpr hne |>.ne'
  rw [listMean, hsum, nsmul_eq_mul]
  exact mul_div_cancel_left₀ _ hlen

theorem sampleStdev_allSame (xs : List ℝ) (h : allSame xs) :
    sampleStdev xs = 0 := by
  have hsum : (xs.map (fun x => (x - listMean xs) ^ 2)).sum = 0 := by
    rcases eq_or_ne xs [] with hxe | hxe
    · simp [hxe]
    · apply List.sum_eq_zero
      intro y hy
      obtain ⟨x, hx, hxy⟩ := List.mem_map.mp hy
      rw [← hxy, listMean_allSame xs hxe h, h x hx]
      ring
  rw [sampleStdev, hsum, zero_div, Real.sqrt_zero]

theorem movingStd_eq_max (d : StatDetector) (values : List ℝ)
    (hlen : d.minHistory ≤ values.length) :
    movingStd d values = max (sampleStdev values) 0.1 := by
  rw [movingStd, if_pos hlen]
  by_cases h : allSame values
  · rw [if_pos h, sampleStdev_allSame values h]
    rw [max_eq_right (by norm_num : (0 : ℝ) ≤ 0.1)]
  · rw [if_neg h]

/-- C9: with at least min_history samples, StatisticalDetector.detect
reports an anomaly exactly when |value - mean| / sigma_safe exceeds
z_threshold / sensitivity, where sigma_safe = max(sample stdev, 0.1); in
particular a uniform window uses sigma_safe = 0.1, never 0. -/
theorem c9_zscore_detection (d : StatDetector) (history : List (Int × ℝ))
    (hne : history ≠ []) (hlen : d.minHistory ≤ history.length) :
    (detectIsAnomaly d history ↔
      |(history.getLast hne).2 - listMean (getValues history)| /
          max (sampleStdev (getValues history)) 0.1 >
        d.zThreshold / d.sensitivity) ∧
    (allSame (getValues history) →
      max (sampleStdev (getValues history)) 0.1 = 0.1) := by
  have hlenv : d.minHistory ≤ (getValues history).length := by
    simpa [getValues] using hlen
  have hpos : (0 : ℝ) < max (sampleStdev (getValues history)) 0.1 :=
    lt_of_lt_of_le (by norm_num) (le_max_right _ _)
  constructor
  · rw [detectIsAnomaly, if_pos hlen]
    have hv : (history.getLastD (0, 0)).2 = (history.getLast hne).2 := by
      rw [List.getLastD_eq_getLast?, List.getLast?_eq_getLast history hne]
      rfl
    show (|if movingStd d (getValues history) > 0 then
        ((history.getLastD (0, 0)).2 - movingAvg d (getValues history)) /
          movingStd d (getValues history) else 0| >
      d.zThreshold / d.sensitivity) ↔ _
    rw [movingStd_eq_max d _ hlenv, movingAvg, if_pos hlenv, if_pos hpos, hv,
      abs_div, abs_of_pos hpos]
  · intro hsame
    rw [sampleStdev_allSame _ hsame]
    exact max_eq_right (by norm_num)

/-- C9 witness: a uniform two-sample window with min_history 2; the
detection condition at this input reduces to the claimed formula with
sigma_safe = 0.1. -/
theorem c9_witness :
    let d : StatDetector :=
      { windowSize := 60, zThreshold := 3, minHistory := 2, sensitivity := 1 }
    let history : List (Int × ℝ) := [(1, 5), (2, 5)]
    ∃ hne : history ≠ [],
      d.minHistory ≤ history.length ∧
      (detectIsAnomaly d history ↔
        |(history.getLast hne).2 - listMean (getValues history)| /
            max (sampleStdev (getValues history)) 0.1 >
          d.zThreshold / d.sensitivity) ∧
      (allSame (getValues history) →
        max (sampleStdev (getValues history)) 0.1 = 0.1) := by
  intro d history
  refine ⟨by simp [history], by simp [history, d], ?_, ?_⟩
  · exact (c9_zscore_detection d history (by simp [history])
      (by simp [history, d])).1
  · exact (c9_zscore_detection d history (by simp [history])
      (by simp [history, d])).2

end Anomaly

namespace BACmon

theorem gridPts_nil (i st e : Int) (h : e < st) : gridPts i st e = [] := by
  simp [gridPts, gridCount, not_le.mpr h]

theorem gridPts_cons (i st e : Int) (hpos : 0 < i) (h : st ≤ e) :
    gridPts i st e = st :: gridPts i (st + i) e := by
  by_cases h2 : st + i ≤ e
  · have hle : i.toNat ≤ (e - st).toNat := by omega
    have hpos2 : 0 < i.toNat := by omega
    have hsub : (e - st).toNat - i.toNat = (e - st - i).toNat := by omega
    have hdiv : (e - st).toNat / i.toNat = (e - st - i).toNat / i.toNat + 1 := by
      rw [Nat.div_eq_sub_div hpos2 hle, hsub]
    have h3 : e - (st + i) = e - st - i := by ring
    have hc : gridCount i st e = gridCount i (st + i) e + 1 := by
      simp only [gridCount, if_pos h, if_pos h2, h3, hdiv]
    rw [gridPts, hc, List.range_succ_eq_map, gridPts]
    simp only [List.map_cons, List.map_map]
    refine congrArg₂ _ (by simp) ?_
    apply List.map_congr_left
    intro k _
    simp only [Function.comp_apply]
    push_cast
    ring
  · have hlt : (e - st).toNat < i.toNat := by omega
    have hc : gridCount i st e = 1 := by
      simp [gridCount, if_pos h, Nat.div_eq_of_lt hlt]
    rw [gridPts, hc, gridPts_nil i (st + i) e (by omega),
      show List.range 1 = [0] from rfl]
    simp

theorem gridPts_mem_bounds (i st e : Int) (hpos : 0 < i) :
    ∀ ts ∈ gridPts i st e, st ≤ ts ∧ ts ≤ e := by
  intro ts hts
  obtain ⟨k, hk, rfl⟩ := List.mem_map.mp hts
  rw [List.mem_range] at hk
  have hknn : (0 : Int) ≤ i * (k : Int) :=
    mul_nonneg hpos.le (by positivity)
  by_cases h : st ≤ e
  · rw [gridCount, if_pos h] at hk
    have hk2 : (k : Int) ≤ (((e - st).toNat / i.toNat : Nat) : Int) := by
      exact_mod_cast Nat.le_of_lt_succ hk
    have hcast1 : ((i.toNat : Int)) = i := Int.toNat_of_nonneg hpos.le
    have hcast2 : (((e - st).toNat : Int)) = e - st := Int.toNat_of_nonneg (by omega)
    have h3 : i.toNat * ((e - st).toNat / i.toNat) ≤ (e - st).toNat := by
      rw [mul_comm]; exact Nat.div_mul_le_self _ _
    have h3i : i * (((e - st).toNat / i.toNat : Nat) : Int) ≤ e - st := by
      rw [← hcast1, ← hcast2]
      exact_mod_cast h3
    have h4 : i * (k : Int) ≤ i * (((e - st).toNat / i.toNat : Nat) : Int) :=
      mul_le_mul_of_nonneg_left hk2 hpos.le
    constructor
    · omega
    · linarith
  · rw [gridCount, if_neg h] at hk
    omega

theorem gridPts_pairwise (i st e : Int) (hpos : 0 < i) :
    (gridPts i st e).Pairwise (· < ·) := by
  refine List.Pairwise.map _ ?_ (List.pairwise_lt_range _)
  intro a b hab
  have h1 : i * (a : Int) < i * (b : Int) := by
    apply mul_lt_mul_of_pos_left _ hpos
    exact_mod_cast hab
  omega

theorem gridPts_split (i e : Int) (hpos : 0 < i) :
    ∀ (n : Nat) (st t : Int), st ≤ t → t ≤ e → t - st = i * n →
      gridPts i st e = gridPts i st (t - 1) ++ t :: gridPts i (t + i) e := by
  intro n
  induction n with
  | zero =>
    intro st t h1 h2 hn
    have hst : st = t := by omega
    subst hst
    rw [gridPts_cons i st e hpos h2, gridPts_nil i st (st - 1) (by omega)]
    simp
  | succ n ih =>
    intro st t h1 h2 hn
    have hnn : (0 : Int) ≤ i * n := mul_nonneg hpos.le (by positivity)
    have hn2 : t - (st + i) = i * n := by push_cast at hn ⊢; linarith
    have hstep : st + i ≤ t := by omega
    rw [gridPts_cons i st e hpos (by omega),
      gridPts_cons i st (t - 1) hpos (by omega),
      ih (st + i) t hstep h2 hn2]
    simp

end BACmon

namespace BACmon

theorem storedAt_eq_zero (samples : List (Int × Int)) (ts : Int)
    (h : ∀ p ∈ samples, p.1 ≠ ts) : storedAt samples ts = 0 := by
  rw [storedAt, List.find?_eq_none.mpr]
  · rfl
  · intro p hp
    simp [h p hp]

theorem storedAt_cons_self (t v : Int) (rest : List (Int × Int)) :
    storedAt ((t, v) :: rest) t = v := by
  rw [storedAt, List.find?_cons_of_pos _ (by simp)]
  rfl

theorem storedAt_cons_of_ne (t v ts : Int) (rest : List (Int × Int))
    (h : t ≠ ts) : storedAt ((t, v) :: rest) ts = storedAt rest ts := by
  rw [storedAt, List.find?_cons_of_neg _ (by simp [h]), storedAt]

theorem gridPts_length_of_dvd (i nt t : Int) (hpos : 0 < i) (hlt : nt < t)
    (hd : i ∣ t - nt) : i * ((gridPts i nt (t - 1)).length : Int) = t - nt := by
  obtain ⟨m, hm⟩ := hd
  have hm1 : 1 ≤ m := by nlinarith
  have hlen : (gridPts i nt (t - 1)).length = gridCount i nt (t - 1) := by
    simp [gridPts]
  rw [hlen, gridCount, if_pos (by omega : nt ≤ t - 1)]
  have hI : ((i.toNat : Int)) = i := Int.toNat_of_nonneg hpos.le
  have hM : ((m.toNat : Int)) = m := Int.toNat_of_nonneg (by omega)
  have hA : (((t - 1 - nt).toNat : Int)) = i * m - 1 := by
    rw [Int.toNat_of_nonneg (by omega)]
    omega
  have hM1 : 1 ≤ m.toNat := by omega
  have hdiv : (t - 1 - nt).toNat / i.toNat = m.toNat - 1 := by
    apply Nat.div_eq_of_lt_le
    · zify [hM1]
      rw [hM, hI, hA]
      nlinarith
    · zify [hM1]
      rw [hM, hI, hA]
      nlinarith
  rw [hdiv]
  have hcast : (((m.toNat - 1 + 1 : Nat)) : Int) = m := by
    rw [Nat.sub_add_cancel hM1, hM]
  rw [hcast]
  linarith [hm]

theorem gridCount_mul_gt (i nt et : Int) (hpos : 0 < i) (hle : nt ≤ et) :
    et - nt < i * (gridCount i nt et : Int) := by
  rw [gridCount, if_pos hle]
  have hI : ((i.toNat : Int)) = i := Int.toNat_of_nonneg hpos.le
  have hAv : (((et - nt).toNat : Int)) = et - nt := Int.toNat_of_nonneg (by omega)
  have hmod := Nat.div_add_mod (et - nt).toNat i.toNat
  have hmodlt : (et - nt).toNat % i.toNat < i.toNat := Nat.mod_lt _ (by omega)
  have hmQ : i * (((et - nt).toNat / i.toNat : Nat) : Int) +
      (((et - nt).toNat % i.toNat : Nat) : Int) = et - nt := by
    rw [← hAv, ← hI]
    exact_mod_cast hmod
  have hmodi : (((et - nt).toNat % i.toNat : Nat) : Int) < i := by
    rw [← hI]
    exact_mod_cast hmodlt
  have hexp : i * ((((et - nt).toNat / i.toNat : Nat) : Int) + 1) =
      i * (((et - nt).toNat / i.toNat : Nat) : Int) + i := by ring
  push_cast
  push_cast at hmQ hmodi hexp
  linarith

theorem gapZeros_char (i et : Int) (hpos : 0 < i) :
    ∀ (fuel : Nat) (nt t : Int), (t - nt).toNat ≤ fuel →
      gapZeros i et fuel nt t =
        (gridPts i nt (min et (t - 1))).map (fun ts => (ts, (0 : Int))) := by
  intro fuel
  induction fuel with
  | zero =>
    intro nt t hf
    have hmr := min_le_right et (t - 1)
    rw [gridPts_nil _ _ _ (by omega)]
    rfl
  | succ fuel ih =>
    intro nt t hf
    show (if nt < t ∧ nt ≤ et then (nt, 0) :: gapZeros i et fuel (nt + i) t else []) = _
    by_cases hc : nt < t ∧ nt ≤ et
    · rw [if_pos hc]
      have hmin : nt ≤ min et (t - 1) := le_min hc.2 (by omega)
      rw [gridPts_cons i nt _ hpos hmin, List.map_cons, ih (nt + i) t (by omega)]
    · rw [if_neg hc]
      have hlt : min et (t - 1) < nt := by
        rcases not_and_or.mp hc with h1 | h2
        · have := min_le_right et (t - 1); omega
        · have := min_le_left et (t - 1); omega
      rw [gridPts_nil _ _ _ hlt]
      rfl

theorem ysLoop_cons (i et nt t v : Int) (rest : List (Int × Int)) :
    ysLoop i et nt ((t, v) :: rest) =
      if t < nt then ysLoop i et nt rest
      else
        if nt + i * ((gapZeros i et (t - nt).toNat nt t).length : Int) > et
        then gapZeros i et (t - nt).toNat nt t
        else gapZeros i et (t - nt).toNat nt t ++
          (nt + i * ((gapZeros i et (t - nt).toNat nt t).length : Int), v) ::
            ysLoop i et
              (nt + i * ((gapZeros i et (t - nt).toNat nt t).length : Int) + i) rest :=
  rfl

end BACmon

namespace BACmon

theorem getLastD_of_ne_nil {l : List (Int × Int)} (h : l ≠ []) (d : Int × Int) :
    l.getLastD d = l.getLast h := by
  rw [List.getLastD_eq_getLast?, List.getLast?_eq_getLast l h]
  rfl

theorem ysLoop_char (i et : Int) (hpos : 0 < i) :
    ∀ (samples : List (Int × Int)) (nt : Int),
      samples.Pairwise (fun p q => p.1 < q.1) →
      (∀ p ∈ samples, i ∣ (p.1 - nt)) →
      ysLoop i et nt samples =
        (if samples.filter (fun p => decide (nt ≤ p.1)) = [] then []
         else
           (gridPts i nt
               (min et ((samples.filter (fun p => decide (nt ≤ p.1))).getLastD (0, 0)).1)).map
             (fun ts => (ts, storedAt samples ts))) := by
  intro samples
  induction samples with
  | nil =>
    intro nt hsort halign
    simp [ysLoop]
  | cons hd rest ih =>
    obtain ⟨t, v⟩ := hd
    intro nt hsort halign
    obtain ⟨hhd0, hrest⟩ := List.pairwise_cons.mp hsort
    have hhd : ∀ q ∈ rest, t < q.1 := fun q hq => hhd0 q hq
    have halignhd : i ∣ t - nt := halign (t, v) (by simp)
    have halignrest : ∀ p ∈ rest, i ∣ (p.1 - nt) :=
      fun p hp => halign p (by simp [hp])
    by_cases hskip : t < nt
    · rw [ysLoop_cons, if_pos hskip, ih nt hrest halignrest]
      have hfil : ((t, v) :: rest).filter (fun p => decide (nt ≤ p.1)) =
          rest.filter (fun p => decide (nt ≤ p.1)) := by
        simp [List.filter_cons, not_le.mpr hskip]
      rw [hfil]
      by_cases hR : rest.filter (fun p => decide (nt ≤ p.1)) = []
      · simp [hR]
      · rw [if_neg hR, if_neg hR]
        apply List.map_congr_left
        intro ts hts
        have hb := (gridPts_mem_bounds _ _ _ hpos ts hts).1
        rw [storedAt_cons_of_ne _ _ _ _ (by omega)]
    · push_neg at hskip
      have hfil : ((t, v) :: rest).filter (fun p => decide (nt ≤ p.1)) =
          (t, v) :: rest := by
        have hall : ∀ q ∈ rest, decide (nt ≤ q.1) = true := by
          intro q hq
          have := hhd q hq
          simp
          omega
        simp [List.filter_cons, hskip, List.filter_eq_self.mpr hall]
      have hrestall : ∀ q ∈ rest, t + i ≤ q.1 := by
        intro q hq
        have hdq : i ∣ q.1 - t := by
          have heq : q.1 - t = (q.1 - nt) - (t - nt) := by ring
          rw [heq]
          exact dvd_sub (halignrest q hq) halignhd
        have := Int.le_of_dvd (by have := hhd q hq; omega) hdq
        omega
      have halignrest2 : ∀ p ∈ rest, i ∣ (p.1 - (t + i)) := by
        intro p hp
        have heq : p.1 - (t + i) = ((p.1 - nt) - (t - nt)) - i := by ring
        rw [heq]
        exact dvd_sub (dvd_sub (halignrest p hp) halignhd) dvd_rfl
      have hfilrest : rest.filter (fun p => decide (t + i ≤ p.1)) = rest :=
        List.filter_eq_self.mpr (fun q hq => by simpa using hrestall q hq)
      rw [ysLoop_cons, if_neg (not_lt.mpr hskip), hfil,
        if_neg (show ¬((t, v) :: rest = []) from by simp)]
      by_cases het : et < t
      · -- the sample lies beyond et: gap-fill through et, then break
        have hminB1 : min et (t - 1) = et := min_eq_left (by omega)
        have hchar : gapZeros i et (t - nt).toNat nt t =
            (gridPts i nt et).map (fun ts => (ts, (0 : Int))) := by
          rw [gapZeros_char i et hpos _ _ _ le_rfl, hminB1]
        have hlen : ((gapZeros i et (t - nt).toNat nt t).length : Int) =
            (gridCount i nt et : Int) := by
          rw [hchar, List.length_map]
          simp [gridPts]
        have hbreak : nt + i * ((gapZeros i et (t - nt).toNat nt t).length : Int) > et := by
          rw [hlen]
          by_cases hnt : nt ≤ et
          · have := gridCount_mul_gt i nt et hpos hnt
            linarith
          · have hz : gridCount i nt et = 0 := by simp [gridCount, hnt]
            rw [hz]
            push_cast
            omega
        rw [if_pos hbreak, hchar]
        have hlastgt : et < (((t, v) :: rest).getLastD (0, 0)).1 := by
          rw [List.getLastD_cons]
          rcases eq_or_ne rest [] with hre | hrne
          · subst hre
            simpa using het
          · rw [getLastD_of_ne_nil hrne]
            have := hhd _ (List.getLast_mem hrne)
            omega
        rw [min_eq_left hlastgt.le]
        apply List.map_congr_left
        intro ts hts
        have hb := (gridPts_mem_bounds _ _ _ hpos ts hts).2
        rw [storedAt_eq_zero]
        intro p hp
        rcases List.mem_cons.mp hp with hph | hpr
        · rw [hph]
          simp
          omega
        · have := hhd p hpr
          omega
      · push_neg at het
        have hminB2 : min et (t - 1) = t - 1 := min_eq_right (by omega)
        have hchar : gapZeros i et (t - nt).toNat nt t =
            (gridPts i nt (t - 1)).map (fun ts => (ts, (0 : Int))) := by
          rw [gapZeros_char i et hpos _ _ _ le_rfl, hminB2]
        have hglen : i * ((gapZeros i et (t - nt).toNat nt t).length : Int) = t - nt := by
          rw [hchar, List.length_map]
          rcases eq_or_lt_of_le hskip with heq | hlt2
          · rw [gridPts_nil i nt (t - 1) (by omega)]
            simp
            omega
          · exact gridPts_length_of_dvd i nt t hpos hlt2 halignhd
        have hnt2 : nt + i * ((gapZeros i et (t - nt).toNat nt t).length : Int) = t := by
          linarith
        rw [hnt2, if_neg (not_lt.mpr het), ih (t + i) hrest halignrest2, hfilrest]
        obtain ⟨m, hm⟩ := halignhd
        have hmnn : 0 ≤ m := by nlinarith
        have hn : t - nt = i * ((m.toNat : Nat) : Int) := by
          rw [Int.toNat_of_nonneg hmnn]
          exact hm
        rcases eq_or_ne rest [] with hre | hrne
        · subst hre
          rw [if_pos rfl]
          rw [List.getLastD_cons, show (([] : List (Int × Int)).getLastD (t, v)) = (t, v) from rfl]
          rw [show (min et ((t, v).1)) = t from min_eq_right het]
          rw [gridPts_split i t hpos m.toNat nt t hskip le_rfl hn,
            gridPts_nil i (t + i) t (by omega)]
          rw [List.map_append, List.map_cons, List.map_nil]
          rw [hchar]
          refine congrArg₂ _ ?_ ?_
          · apply List.map_congr_left
            intro ts hts
            have hb := (gridPts_mem_bounds _ _ _ hpos ts hts).2
            rw [storedAt_eq_zero]
            intro p hp
            rcases List.mem_cons.mp hp with hph | hpr
            · rw [hph]; simp; omega
            · simp at hpr
          · rw [storedAt_cons_self]
        · rw [if_neg hrne, getLastD_of_ne_nil hrne]
          rw [List.getLastD_cons, getLastD_of_ne_nil hrne]
          have hTLgt : t < (rest.getLast hrne).1 := hhd _ (List.getLast_mem hrne)
          have htE : t ≤ min et (rest.getLast hrne).1 := le_min het hTLgt.le
          rw [gridPts_split i (min et (rest.getLast hrne).1) hpos m.toNat nt t hskip htE hn]
          rw [List.map_append, List.map_cons]
          rw [hchar]
          refine congrArg₂ _ ?_ (congrArg₂ _ ?_ ?_)
          · apply List.map_congr_left
            intro ts hts
            have hb := (gridPts_mem_bounds _ _ _ hpos ts hts).2
            rw [storedAt_eq_zero]
            intro p hp
            rcases List.mem_cons.mp hp with hph | hpr
            · rw [hph]; simp; omega
            · have := hhd p hpr
              omega
          · rw [storedAt_cons_self]
          · apply List.map_congr_left
            intro ts hts
            have hb := (gridPts_mem_bounds _ _ _ hpos ts hts).1
            rw [storedAt_cons_of_ne _ _ _ _ (by omega)]

end BACmon

namespace BACmon

/-- C2 counterexample.  The claim says yield_samples substitutes 0 for
missing aligned intervals within [st, et] including intervals after the
last stored bucket.  With one stored bucket (0, 5), interval 10 and the
requested range [0, 20], the code yields only [(0, 5)]: the aligned
intervals 10 and 20 lie in the range, have no stored bucket, and are not
emitted as zeros. -/
theorem c2_no_trailing_gap_fill :
    let task : SampleRateTask :=
      { key := "K", interval := 10, maxValue := 10, duration := 3 }
    let kv0 : KV :=
      { KV.empty with lists := fun k => if k = "K" then [(0, 5)] else [] }
    task.yield_samples kv0 0 20 = [(0, 5)] ∧
    ((10, 0) ∉ task.yield_samples kv0 0 20) := by
  constructor
  · rfl
  · decide

/-- C2 as amended: for aligned, chronologically stored buckets,
yield_samples emits exactly the aligned grid points from st through
min(et, T), where T is the timestamp of the last stored bucket at or after
st, carrying the stored count where a bucket exists and 0 for the missing
intervals in between (nothing at all when no stored bucket is at or after
st, and in particular nothing after the last stored bucket when it
precedes et); every emitted timestamp lies in [st, et] and the output is
strictly chronological. -/
theorem c2_yield_samples_characterization (task : SampleRateTask) (kv : KV)
    (st et : Int) (hpos : 0 < task.interval)
    (hsort : (((kv.lists task.key).take (WINDOW_SIZE + 1)).reverse).Pairwise
      (fun p q => p.1 < q.1))
    (halign : ∀ p ∈ ((kv.lists task.key).take (WINDOW_SIZE + 1)).reverse,
      task.interval ∣ (p.1 - st)) :
    (task.yield_samples kv st et =
      (if (((kv.lists task.key).take (WINDOW_SIZE + 1)).reverse).filter
            (fun p => decide (st ≤ p.1)) = [] then []
       else
         (gridPts task.interval st
             (min et
               ((((((kv.lists task.key).take (WINDOW_SIZE + 1)).reverse).filter
                 (fun p => decide (st ≤ p.1))).getLastD (0, 0)).1))).map
           (fun ts =>
             (ts, storedAt (((kv.lists task.key).take (WINDOW_SIZE + 1)).reverse) ts)))) ∧
    (∀ p ∈ task.yield_samples kv st et, st ≤ p.1 ∧ p.1 ≤ et) ∧
    (task.yield_samples kv st et).Pairwise (fun p q => p.1 < q.1) := by
  have hchar := ysLoop_char task.interval et hpos
    (((kv.lists task.key).take (WINDOW_SIZE + 1)).reverse) st hsort halign
  have hys : task.yield_samples kv st et =
      ysLoop task.interval et st
        (((kv.lists task.key).take (WINDOW_SIZE + 1)).reverse) := rfl
  refine ⟨by rw [hys, hchar], ?_, ?_⟩
  · intro p hp
    rw [hys, hchar] at hp
    split at hp
    · simp at hp
    · obtain ⟨ts, hts, rfl⟩ := List.mem_map.mp hp
      obtain ⟨h1, h2⟩ := gridPts_mem_bounds _ _ _ hpos ts hts
      exact ⟨h1, le_trans h2 (min_le_left _ _)⟩
  · rw [hys, hchar]
    split
    · exact List.Pairwise.nil
    · refine List.Pairwise.map _ ?_ (gridPts_pairwise _ _ _ hpos)
      intro a b hab
      simpa using hab

/-- C2 witness: two stored buckets (0, 5) and (20, 7) at interval 10 with
the requested range [0, 30]; the output is the grid [0, 20] with the gap
at 10 zero-filled, all timestamps within range and strictly increasing,
and nothing after the last stored bucket. -/
theorem c2_witness :
    let task : SampleRateTask :=
      { key := "K", interval := 10, maxValue := 10, duration := 3 }
    let kv0 : KV :=
      { KV.empty with lists := fun k => if k = "K" then [(20, 7), (0, 5)] else [] }
    task.yield_samples kv0 0 30 = [(0, 5), (10, 0), (20, 7)] ∧
    (∀ p ∈ task.yield_samples kv0 0 30, 0 ≤ p.1 ∧ p.1 ≤ 30) ∧
    (task.yield_samples kv0 0 30).Pairwise (fun p q => p.1 < q.1) := by
  intro task kv0
  have h := c2_yield_samples_characterization task kv0 0 30 (by decide)
    (by decide) (by decide)
  refine ⟨?_, h.2.1, h.2.2⟩
  rw [h.1]
  decide

end BACmon
